import Mathlib

/-
Verification of the G1 service thread scheduler (task queue, registration,
worker sleep/wake) and of the JfrChunk generation counter.

The repository sample contains the scheduler header
src/hotspot/share/gc/g1/g1ServiceThread.hpp (declarations and contract
comments) but not the implementation file g1ServiceThread.cpp; the queue and
thread operations below are therefore modelled from the specification text,
as marked on each definition.  jfrChunk.cpp is present in the sample and the
JfrChunk definitions are translated from it directly.
-/

namespace G1

/-- The maximal jlong value, 2 ^ 63 - 1.  The header comment in
g1ServiceThread.hpp: the sentinel task has its time set to max_jlong,
guaranteeing it to be the last task in the queue. -/
def max_jlong : Int := 2 ^ 63 - 1

/-- Modelled from the spec: a G1ServiceTask as far as the queue is concerned.
`id` stands for the identity of the heap-allocated task object and `time` for
the `_time` field (the absolute due time, a jlong).  The `_next` intrusive
link is represented by the position of the task in the queue chain below, and
the `_service_thread` owner field by the `registered` set of the thread
model. -/
structure G1ServiceTask where
  id : Nat
  time : Int
  deriving DecidableEq

/-- Modelled from the spec: the sentinel task (class G1SentinelTask), a fixed
task with the maximum representable due time, permanently the terminal node
of the queue chain. -/
def sentinelTask : G1ServiceTask := ⟨0, max_jlong⟩

/-- Modelled from the spec: the `add_ordered` scan over the chain of tasks.
It stops at the first node whose due time is strictly greater than the due
time of the inserted task and splices the task in before that node, so tasks
with equal due time keep arrival order. -/
def add_ordered_chain (t : G1ServiceTask) : List G1ServiceTask → List G1ServiceTask
  | [] => [t]
  | x :: xs => if t.time < x.time then t :: x :: xs else x :: add_ordered_chain t xs

/-- Modelled from the spec: the task queue, represented by its chain of tasks
in queue order; the sentinel is the terminal node of the chain. -/
structure G1ServiceTaskQueue where
  chain : List G1ServiceTask
  deriving DecidableEq

namespace G1ServiceTaskQueue

/-- Modelled from the spec: a freshly constructed queue holds exactly the
sentinel. -/
def init : G1ServiceTaskQueue := ⟨[sentinelTask]⟩

/-- Modelled from the spec: ordered insertion. -/
def add_ordered (q : G1ServiceTaskQueue) (t : G1ServiceTask) : G1ServiceTaskQueue :=
  ⟨add_ordered_chain t q.chain⟩

/-- Modelled from the spec: `peek` returns the head of the chain without
removing it. -/
def peek (q : G1ServiceTaskQueue) : Option G1ServiceTask :=
  q.chain.head?

/-- Modelled from the spec: `pop` unconditionally removes and returns the
current head and relinks the chain. -/
def pop (q : G1ServiceTaskQueue) : Option G1ServiceTask × G1ServiceTaskQueue :=
  (q.chain.head?, ⟨q.chain.tail⟩)

/-- Modelled from the spec: `is_empty` is true iff the head is the
sentinel. -/
def is_empty (q : G1ServiceTaskQueue) : Bool :=
  decide (q.peek = some sentinelTask)

/-- Well-formedness of a queue: the chain is a list of real tasks (due time
strictly below max_jlong, hence distinct from the sentinel) followed by the
sentinel, and the due times along the chain are non-decreasing. -/
def WF (q : G1ServiceTaskQueue) : Prop :=
  (∃ r, q.chain = r ++ [sentinelTask] ∧ ∀ x ∈ r, x.time < max_jlong) ∧
  q.chain.Chain' (fun a b => a.time ≤ b.time)

end G1ServiceTaskQueue

/-- Queue states reachable from a fresh queue by the two mutating queue
operations: ordered insertion of a real task (every registered task has due
time now + delay, below the sentinel time), and popping while the queue
still has real work (the worker pops only due tasks, and the sentinel is
never due). -/
inductive Reachable : G1ServiceTaskQueue → Prop
  | start : Reachable G1ServiceTaskQueue.init
  | add (q : G1ServiceTaskQueue) (t : G1ServiceTask) :
      Reachable q → t.time < max_jlong → Reachable (q.add_ordered t)
  | popStep (q : G1ServiceTaskQueue) :
      Reachable q → q.is_empty = false → Reachable (q.pop).2

theorem mem_add_ordered_chain (t x : G1ServiceTask) (l : List G1ServiceTask) :
    x ∈ add_ordered_chain t l ↔ x = t ∨ x ∈ l := by
  induction l with
  | nil => simp [add_ordered_chain]
  | cons y ys ih =>
    by_cases h : t.time < y.time
    · simp [add_ordered_chain, h]
    · simp [add_ordered_chain, h, ih]
      tauto

theorem length_add_ordered_chain (t : G1ServiceTask) (l : List G1ServiceTask) :
    (add_ordered_chain t l).length = l.length + 1 := by
  induction l with
  | nil => simp [add_ordered_chain]
  | cons y ys ih =>
    by_cases h : t.time < y.time <;> simp [add_ordered_chain, h, ih]

theorem add_ordered_chain_append_last (t s : G1ServiceTask)
    (r : List G1ServiceTask) (h : t.time < s.time) :
    add_ordered_chain t (r ++ [s]) = add_ordered_chain t r ++ [s] := by
  induction r with
  | nil => simp [add_ordered_chain, h]
  | cons x xs ih =>
    by_cases hx : t.time < x.time <;> simp [add_ordered_chain, hx, ih]

theorem head?_add_ordered_chain (t z : G1ServiceTask) (l : List G1ServiceTask)
    (h : (add_ordered_chain t l).head? = some z) : z = t ∨ l.head? = some z := by
  cases l with
  | nil =>
    simp [add_ordered_chain] at h
    exact Or.inl h.symm
  | cons x xs =>
    by_cases hx : t.time < x.time
    · simp [add_ordered_chain, hx] at h
      exact Or.inl h.symm
    · simp [add_ordered_chain, hx] at h
      exact Or.inr (by simp [h])

theorem chain_le_add_ordered (t : G1ServiceTask) (l : List G1ServiceTask)
    (h : l.Chain' (fun a b => a.time ≤ b.time)) :
    (add_ordered_chain t l).Chain' (fun a b => a.time ≤ b.time) := by
  induction l with
  | nil => simp [add_ordered_chain]
  | cons x xs ih =>
    by_cases hx : t.time < x.time
    · have heq : add_ordered_chain t (x :: xs) = t :: x :: xs := by
        simp [add_ordered_chain, hx]
      rw [heq]
      exact List.chain'_cons.2 ⟨le_of_lt hx, h⟩
    · have hxs : xs.Chain' (fun a b => a.time ≤ b.time) := h.tail
      have hmain := ih hxs
      simp only [add_ordered_chain, hx, if_false]
      refine List.chain'_cons'.2 ⟨?_, hmain⟩
      intro z hz
      rcases head?_add_ordered_chain t z xs hz with hzt | hzx
      · subst hzt
        exact le_of_not_lt hx
      · exact (List.chain'_cons'.1 h).1 z hzx

namespace G1ServiceTaskQueue

theorem WF.init_wf : WF init := by
  constructor
  · exact ⟨[], rfl, by simp⟩
  · simp [init]

theorem WF.add_ordered_wf {q : G1ServiceTaskQueue} {t : G1ServiceTask}
    (h : WF q) (ht : t.time < max_jlong) : WF (q.add_ordered t) := by
  obtain ⟨⟨r, hr, hrt⟩, hsorted⟩ := h
  constructor
  · refine ⟨add_ordered_chain t r, ?_, ?_⟩
    · have : t.time < sentinelTask.time := ht
      simp [add_ordered, hr, add_ordered_chain_append_last t sentinelTask r this]
    · intro x hx
      rcases (mem_add_ordered_chain t x r).1 hx with h1 | h2
      · subst h1; exact ht
      · exact hrt x h2
  · simpa [add_ordered] using chain_le_add_ordered t q.chain hsorted

theorem WF.pop_wf {q : G1ServiceTaskQueue} (h : WF q)
    (hne : q.is_empty = false) : WF (q.pop).2 := by
  obtain ⟨⟨r, hr, hrt⟩, hsorted⟩ := h
  cases r with
  | nil =>
    exfalso
    simp [is_empty, peek, hr] at hne
  | cons a r2 =>
    constructor
    · refine ⟨r2, ?_, fun x hx => hrt x (by simp [hx])⟩
      simp [pop, hr]
    · have := hsorted.tail
      simpa [pop, hr] using (by simpa [hr] using this)

theorem Reachable_WF {q : G1ServiceTaskQueue} (h : Reachable q) : WF q := by
  induction h with
  | start => exact WF.init_wf
  | add q t _ ht ih => exact WF.add_ordered_wf ih ht
  | popStep q _ hne ih => exact WF.pop_wf ih hne

end G1ServiceTaskQueue

theorem ne_sentinel_of_time_lt {x : G1ServiceTask} (h : x.time < max_jlong) :
    x ≠ sentinelTask := by
  intro he
  rw [he] at h
  simp [sentinelTask] at h

/-- A queue after `k` pop operations. -/
def popN (q : G1ServiceTaskQueue) : Nat → G1ServiceTaskQueue
  | 0 => q
  | Nat.succ k => popN (q.pop).2 k

/-- The queue obtained from a fresh queue by a sequence of add_ordered
calls, one for each task in the list, in order. -/
def buildQueue (ts : List G1ServiceTask) : G1ServiceTaskQueue :=
  ts.foldl (fun q t => q.add_ordered t) G1ServiceTaskQueue.init

theorem WF_foldl_add (ts : List G1ServiceTask) :
    ∀ q : G1ServiceTaskQueue, q.WF → (∀ t ∈ ts, t.time < max_jlong) →
      (ts.foldl (fun q t => q.add_ordered t) q).WF := by
  induction ts with
  | nil => intro q hq _; simpa using hq
  | cons t ts ih =>
    intro q hq hts
    simp only [List.foldl_cons]
    exact ih _ (G1ServiceTaskQueue.WF.add_ordered_wf hq (hts t (by simp)))
      (fun x hx => hts x (by simp [hx]))

theorem length_foldl_add (ts : List G1ServiceTask) :
    ∀ q : G1ServiceTaskQueue,
      (ts.foldl (fun q t => q.add_ordered t) q).chain.length
        = q.chain.length + ts.length := by
  induction ts with
  | nil => intro q; simp
  | cons t ts ih =>
    intro q
    simp only [List.foldl_cons, ih]
    simp [G1ServiceTaskQueue.add_ordered, length_add_ordered_chain]
    omega

theorem buildQueue_WF (ts : List G1ServiceTask)
    (h : ∀ t ∈ ts, t.time < max_jlong) : (buildQueue ts).WF :=
  WF_foldl_add ts _ G1ServiceTaskQueue.WF.init_wf h

theorem buildQueue_length (ts : List G1ServiceTask) :
    (buildQueue ts).chain.length = ts.length + 1 := by
  simp [buildQueue, length_foldl_add, G1ServiceTaskQueue.init]
  omega

theorem popN_wf_peek (k : Nat) :
    ∀ q : G1ServiceTaskQueue, q.WF → k + 1 < q.chain.length →
      ∃ t, ((popN q k).pop).1 = some t ∧ (popN q k).peek = some t ∧
        t ≠ sentinelTask := by
  induction k with
  | zero =>
    intro q hq hk
    obtain ⟨⟨r, hr, hrt⟩, _⟩ := hq
    cases r with
    | nil => simp [hr] at hk
    | cons a r2 =>
      exact ⟨a, by simp [popN, G1ServiceTaskQueue.pop, hr],
        by simp [popN, G1ServiceTaskQueue.peek, hr],
        ne_sentinel_of_time_lt (hrt a (by simp))⟩
  | succ k ih =>
    intro q hq hk
    obtain ⟨⟨r, hr, hrt⟩, hsort⟩ := hq
    cases r with
    | nil => simp [hr] at hk
    | cons a r2 =>
      have ha : a ≠ sentinelTask := ne_sentinel_of_time_lt (hrt a (by simp))
      have hne : q.is_empty = false := by
        simp [G1ServiceTaskQueue.is_empty, G1ServiceTaskQueue.peek, hr, ha]
      have hwf2 : (q.pop).2.WF :=
        G1ServiceTaskQueue.WF.pop_wf ⟨⟨_, hr, hrt⟩, hsort⟩ hne
      have hlen : k + 1 < (q.pop).2.chain.length := by
        simp only [G1ServiceTaskQueue.pop] at hwf2 ⊢
        simp [hr] at hk ⊢
        omega
      exact ih (q.pop).2 hwf2 hlen

theorem add_ordered_chain_take_drop (t : G1ServiceTask) (l : List G1ServiceTask) :
    add_ordered_chain t l =
      l.takeWhile (fun x => decide (x.time ≤ t.time)) ++
        t :: l.dropWhile (fun x => decide (x.time ≤ t.time)) := by
  induction l with
  | nil => simp [add_ordered_chain]
  | cons x xs ih =>
    by_cases h : t.time < x.time
    · have hx : (decide (x.time ≤ t.time)) = false := by
        simp only [decide_eq_false_iff_not]
        omega
      simp [add_ordered_chain, h, List.takeWhile_cons, List.dropWhile_cons, hx]
    · have hx : (decide (x.time ≤ t.time)) = true := by
        simp only [decide_eq_true_eq]
        omega
      simp [add_ordered_chain, h, List.takeWhile_cons, List.dropWhile_cons, hx, ih]

theorem add_ordered_chain_append_left (t : G1ServiceTask)
    (l1 l2 : List G1ServiceTask) (h : ∀ x ∈ l1, ¬ t.time < x.time) :
    add_ordered_chain t (l1 ++ l2) = l1 ++ add_ordered_chain t l2 := by
  induction l1 with
  | nil => simp
  | cons x xs ih =>
    have hx := h x (by simp)
    simp [add_ordered_chain, hx, ih (fun y hy => h y (by simp [hy]))]

theorem dropWhile_head_false {α : Type} (p : α → Bool) :
    ∀ (l : List α) (x : α) (r : List α), l.dropWhile p = x :: r →
      p x = false := by
  intro l
  induction l with
  | nil => intro x r h; simp at h
  | cons a as ih =>
    intro x r h
    rw [List.dropWhile_cons] at h
    by_cases hp : p a = true
    · rw [if_pos hp] at h
      exact ih x r h
    · rw [if_neg hp] at h
      injection h with h1 h2
      subst h1
      simpa using hp

theorem popN_chain (k : Nat) :
    ∀ q : G1ServiceTaskQueue, (popN q k).chain = q.chain.drop k := by
  induction k with
  | zero => intro q; simp [popN]
  | succ k ih =>
    intro q
    have : (popN q (k + 1)) = popN (q.pop).2 k := rfl
    rw [this, ih]
    simp only [G1ServiceTaskQueue.pop]
    rw [← List.drop_one, List.drop_drop, Nat.add_comm]

theorem popN_pop_fst (k : Nat) (q : G1ServiceTaskQueue) :
    ((popN q k).pop).1 = q.chain[k]? := by
  simp [G1ServiceTaskQueue.pop, popN_chain, List.head?_drop]

theorem getElem?_append_cons {α : Type} (l1 : List α) (a : α) (r : List α) :
    (l1 ++ a :: r)[l1.length]? = some a := by
  rw [List.getElem?_append_right (le_refl l1.length)]
  simp

/-- Claim C2: add_ordered inserts a task immediately before the first node
whose due time is strictly greater than the due time of the inserted task
(the chain splits as the maximal prefix of nodes with due time at most the
new due time, then the new task, then the rest); consequently, inserting A
and then B with equal due times places A strictly before B in the chain, so
repeated pop returns A (at some pop index i) before B (at some later pop
index j). -/
theorem claim_C2_fifo_equal_times (q : G1ServiceTaskQueue)
    (A B t : G1ServiceTask) (hAB : A.time = B.time) :
    (q.add_ordered t).chain =
      q.chain.takeWhile (fun x => decide (x.time ≤ t.time)) ++
        t :: q.chain.dropWhile (fun x => decide (x.time ≤ t.time)) ∧
    ∃ i j, i < j ∧
      ((popN ((q.add_ordered A).add_ordered B) i).pop).1 = some A ∧
      ((popN ((q.add_ordered A).add_ordered B) j).pop).1 = some B := by
  constructor
  · simpa [G1ServiceTaskQueue.add_ordered] using
      add_ordered_chain_take_drop t q.chain
  · have h1 : (q.add_ordered A).chain =
        q.chain.takeWhile (fun x => decide (x.time ≤ A.time)) ++
          A :: q.chain.dropWhile (fun x => decide (x.time ≤ A.time)) := by
      simpa [G1ServiceTaskQueue.add_ordered] using
        add_ordered_chain_take_drop A q.chain
    set P := q.chain.takeWhile (fun x => decide (x.time ≤ A.time)) with hP
    set S := q.chain.dropWhile (fun x => decide (x.time ≤ A.time)) with hS
    have hPmem : ∀ x ∈ P ++ [A], ¬ B.time < x.time := by
      intro x hx
      rcases List.mem_append.1 hx with hx1 | hx2
      · have := List.mem_takeWhile_imp hx1
        simp only [decide_eq_true_eq] at this
        omega
      · have : x = A := by simpa using hx2
        subst this
        omega
    have h2 : ((q.add_ordered A).add_ordered B).chain =
        P ++ A :: add_ordered_chain B S := by
      have hstep : ((q.add_ordered A).add_ordered B).chain =
          add_ordered_chain B ((q.add_ordered A).chain) := rfl
      have hsplit : P ++ A :: S = (P ++ [A]) ++ S := by simp
      rw [hstep, h1, hsplit, add_ordered_chain_append_left B (P ++ [A]) S hPmem]
      simp
    have h3 : add_ordered_chain B S =
        S.takeWhile (fun x => decide (x.time ≤ B.time)) ++
          B :: S.dropWhile (fun x => decide (x.time ≤ B.time)) :=
      add_ordered_chain_take_drop B S
    set S1 := S.takeWhile (fun x => decide (x.time ≤ B.time)) with hS1
    set S2 := S.dropWhile (fun x => decide (x.time ≤ B.time)) with hS2
    refine ⟨P.length, P.length + S1.length + 1, by omega, ?_, ?_⟩
    · rw [popN_pop_fst, h2, h3]
      exact getElem?_append_cons P A (S1 ++ B :: S2)
    · rw [popN_pop_fst, h2, h3]
      have hge : P.length ≤ P.length + S1.length + 1 := by omega
      rw [List.getElem?_append_right hge]
      have : P.length + S1.length + 1 - P.length = S1.length + 1 := by omega
      rw [this]
      rw [List.getElem?_cons_succ]
      exact getElem?_append_cons S1 B S2

/-- Witness for claim C2 at the fresh queue with tasks A = task 1 due 7 and
B = task 2 due 7 inserted in that order. -/
theorem claim_C2_witness :
    (G1ServiceTaskQueue.init.add_ordered ⟨3, 4⟩).chain =
      G1ServiceTaskQueue.init.chain.takeWhile
          (fun x => decide (x.time ≤ (4 : Int))) ++
        ⟨3, 4⟩ :: G1ServiceTaskQueue.init.chain.dropWhile
          (fun x => decide (x.time ≤ (4 : Int))) ∧
    ∃ i j, i < j ∧
      ((popN ((G1ServiceTaskQueue.init.add_ordered ⟨1, 7⟩).add_ordered
        ⟨2, 7⟩) i).pop).1 = some ⟨1, 7⟩ ∧
      ((popN ((G1ServiceTaskQueue.init.add_ordered ⟨1, 7⟩).add_ordered
        ⟨2, 7⟩) j).pop).1 = some ⟨2, 7⟩ :=
  claim_C2_fifo_equal_times G1ServiceTaskQueue.init ⟨1, 7⟩ ⟨2, 7⟩ ⟨3, 4⟩ rfl

/-- Claim C3: every queue reachable from a fresh queue by add_ordered of real
tasks and pop of real work keeps the sentinel as its terminal node, the
sentinel time is the maximal jlong value, and is_empty is true exactly when
the sentinel is the only node in the chain. -/
theorem claim_C3_sentinel_terminal (q : G1ServiceTaskQueue)
    (h : Reachable q) :
    (∃ r, q.chain = r ++ [sentinelTask]) ∧
    sentinelTask.time = max_jlong ∧
    (q.is_empty = true ↔ q.chain = [sentinelTask]) := by
  obtain ⟨⟨r, hr, hrt⟩, _⟩ := G1ServiceTaskQueue.Reachable_WF h
  refine ⟨⟨r, hr⟩, rfl, ?_⟩
  cases r with
  | nil =>
    simp [G1ServiceTaskQueue.is_empty, G1ServiceTaskQueue.peek, hr]
  | cons a r2 =>
    have ha : a ≠ sentinelTask := ne_sentinel_of_time_lt (hrt a (by simp))
    constructor
    · intro he
      simp [G1ServiceTaskQueue.is_empty, G1ServiceTaskQueue.peek, hr, ha] at he
    · intro he
      rw [hr] at he
      have : a = sentinelTask := by
        have := congrArg List.head? he
        simpa using this
      exact absurd this ha

/-- Witness for claim C3 at the fresh queue. -/
theorem claim_C3_witness :
    (∃ r, G1ServiceTaskQueue.init.chain = r ++ [sentinelTask]) ∧
    sentinelTask.time = max_jlong ∧
    (G1ServiceTaskQueue.init.is_empty = true ↔
      G1ServiceTaskQueue.init.chain = [sentinelTask]) :=
  claim_C3_sentinel_terminal G1ServiceTaskQueue.init Reachable.start

/-- Claim C6: add_ordered finds an insertion point for every real task (due
time below the maximal jlong value) and every well-formed queue state: the
scan from the head passes only nodes with due time at most the due time of
the new task, reaches a node with strictly greater due time (the sentinel
time is maximal, so such a node exists), and the insertion happens exactly
there, so the scan never runs off the chain. -/
theorem claim_C6_insertion_point (q : G1ServiceTaskQueue)
    (t : G1ServiceTask) (hq : q.WF) (ht : t.time < max_jlong) :
    ∃ l1 x l2, q.chain = l1 ++ x :: l2 ∧
      (∀ y ∈ l1, y.time ≤ t.time) ∧ t.time < x.time ∧
      (q.add_ordered t).chain = l1 ++ t :: x :: l2 := by
  obtain ⟨⟨r, hr, hrt⟩, _⟩ := hq
  have hsent : sentinelTask ∈ q.chain := by
    rw [hr]
    simp
  have hfail : (fun x : G1ServiceTask => decide (x.time ≤ t.time)) sentinelTask
      = false := by
    simp only [decide_eq_false_iff_not]
    simp only [sentinelTask]
    omega
  have hdrop : q.chain.dropWhile (fun x => decide (x.time ≤ t.time)) ≠ [] := by
    intro hnil
    rw [List.dropWhile_eq_nil_iff] at hnil
    have hsen := hnil sentinelTask hsent
    simp only [decide_eq_true_eq, sentinelTask] at hsen
    omega
  obtain ⟨x, l2, hxl2⟩ := List.exists_cons_of_ne_nil hdrop
  refine ⟨q.chain.takeWhile (fun x => decide (x.time ≤ t.time)), x, l2, ?_, ?_, ?_, ?_⟩
  · conv_lhs => rw [← List.takeWhile_append_dropWhile
      (fun x : G1ServiceTask => decide (x.time ≤ t.time)) q.chain]
    rw [hxl2]
  · intro y hy
    have := List.mem_takeWhile_imp
      (p := fun x : G1ServiceTask => decide (x.time ≤ t.time)) hy
    simpa using this
  · have hhead := dropWhile_head_false
      (fun x : G1ServiceTask => decide (x.time ≤ t.time)) q.chain x l2 hxl2
    simp only [decide_eq_false_iff_not] at hhead
    omega
  · rw [G1ServiceTaskQueue.add_ordered, add_ordered_chain_take_drop, hxl2]

/-- Witness for claim C6 at the fresh queue and the real task 1 due 0. -/
theorem claim_C6_witness :
    ∃ l1 x l2, G1ServiceTaskQueue.init.chain = l1 ++ x :: l2 ∧
      (∀ y ∈ l1, y.time ≤ (0 : Int)) ∧ (0 : Int) < x.time ∧
      (G1ServiceTaskQueue.init.add_ordered ⟨1, 0⟩).chain =
        l1 ++ (⟨1, 0⟩ : G1ServiceTask) :: x :: l2 :=
  claim_C6_insertion_point G1ServiceTaskQueue.init ⟨1, 0⟩
    G1ServiceTaskQueue.WF.init_wf (by decide)

/-- Claim C1: for every sequence of add_ordered calls on a fresh queue of real
tasks (due time below the sentinel time) followed by repeated pop calls, the
due times along the resulting chain, hence of the popped tasks, are
non-decreasing, and while at least one real task remains (fewer pops than
inserted tasks) neither pop nor peek returns the sentinel. -/
theorem claim_C1_pop_order (ts : List G1ServiceTask)
    (h : ∀ t ∈ ts, t.time < max_jlong) :
    ((buildQueue ts).chain.map G1ServiceTask.time).Chain' (fun a b => a ≤ b) ∧
    ∀ k, k < ts.length →
      ∃ t, ((popN (buildQueue ts) k).pop).1 = some t ∧
        (popN (buildQueue ts) k).peek = some t ∧ t ≠ sentinelTask := by
  have hwf := buildQueue_WF ts h
  constructor
  · rw [List.chain'_map]
    exact hwf.2
  · intro k hk
    refine popN_wf_peek k _ hwf ?_
    rw [buildQueue_length]
    omega

/-- Witness for claim C1 at the concrete insertion sequence
[task 1 due 5, task 2 due 3]. -/
theorem claim_C1_witness :
    ((buildQueue [⟨1, 5⟩, ⟨2, 3⟩]).chain.map G1ServiceTask.time).Chain'
        (fun a b => a ≤ b) ∧
    ∀ k, k < ([⟨1, 5⟩, ⟨2, 3⟩] : List G1ServiceTask).length →
      ∃ t, ((popN (buildQueue [⟨1, 5⟩, ⟨2, 3⟩]) k).pop).1 = some t ∧
        (popN (buildQueue [⟨1, 5⟩, ⟨2, 3⟩]) k).peek = some t ∧
        t ≠ sentinelTask :=
  claim_C1_pop_order [⟨1, 5⟩, ⟨2, 3⟩] (by decide)

/-- Modelled from the spec: the fatal programming errors of the scheduler
(fail fast via assertion or abort, not recoverable runtime conditions). -/
inductive G1Fatal where
  | already_registered
  | not_registered
  | sentinel_executed
  deriving DecidableEq

/-- Modelled from the spec: the state of a G1ServiceThread visible to the
scheduler contract.  `now` is the single monotonic millisecond clock of the
instance, `task_queue` the monitor-protected queue, `registered` the set of
task identities whose owner field (`_service_thread`) points at this thread,
and `notified` records a pending notify of the monitor (set by schedule_task
so that a sleeping worker recomputes its wait).  The `_vtime_accum`
diagnostic accumulator has no effect on scheduling and is omitted. -/
structure G1ServiceThread where
  now : Int
  task_queue : G1ServiceTaskQueue
  registered : List Nat
  notified : Bool
  deriving DecidableEq

namespace G1ServiceThread

/-- Modelled from the spec: `schedule_task` acquires the monitor, inserts the
task with due time now + delay via add_ordered, and notifies the monitor. -/
def schedule_task (st : G1ServiceThread) (tid : Nat) (delay : Int) :
    G1ServiceThread :=
  { st with
    task_queue := st.task_queue.add_ordered ⟨tid, st.now + delay⟩
    notified := true }

/-- Modelled from the spec: `register_task` fails fast if the task already
has an owner; otherwise it sets the owner to this thread and calls the
internal schedule_task. -/
def register_task (st : G1ServiceThread) (tid : Nat) (delay : Int) :
    Except G1Fatal G1ServiceThread :=
  if tid ∈ st.registered then Except.error G1Fatal.already_registered
  else Except.ok
    (schedule_task { st with registered := tid :: st.registered } tid delay)

/-- Modelled from the spec: `schedule` is called by a task from inside its
own execute (or by the owner before first registration); calling it on an
unregistered task is a programming error, while on a registered task it
routes to schedule_task of the owning thread. -/
def schedule (st : G1ServiceThread) (tid : Nat) (delay : Int) :
    Except G1Fatal G1ServiceThread :=
  if tid ∈ st.registered then Except.ok (schedule_task st tid delay)
  else Except.error G1Fatal.not_registered

/-- Modelled from the spec: the time in milliseconds until the next task is
due, the due time of the head minus now, clamped to be non-negative. -/
def time_to_next_task_ms (st : G1ServiceThread) : Int :=
  match st.task_queue.peek with
  | none => 0
  | some h => max 0 (h.time - st.now)

/-- Modelled from the spec: the worker pops the head only when the queue has
real work and the head task is due (zero time until the next task);
otherwise it pops nothing and goes to sleep. -/
def pop_due_task (st : G1ServiceThread) :
    Option G1ServiceTask × G1ServiceThread :=
  if st.task_queue.is_empty = true ∨ time_to_next_task_ms st ≠ 0 then
    (none, st)
  else
    ((st.task_queue.pop).1, { st with task_queue := (st.task_queue.pop).2 })

/-- Modelled from the spec: the timed wait on the monitor.  Started at
`sleep_start` for `wait_ms` milliseconds, it returns at the timeout, or
early at the time of a notify of the monitor when one arrives before the
timeout. -/
def sleep_wake_time (sleep_start wait_ms : Int) (notify_at : Option Int) :
    Int :=
  match notify_at with
  | none => sleep_start + wait_ms
  | some t => min t (sleep_start + wait_ms)

/-- Modelled from the spec: invoking the execute of the sentinel task is an
invariant violation surfaced on the fatal path, never a silent no-op. -/
def sentinel_execute : Except G1Fatal Unit :=
  Except.error G1Fatal.sentinel_executed

/-- Modelled from the spec: the state transitions of one scheduler instance
that touch the task queue or the clock: a successful registration, a
successful reschedule from inside execute, the worker popping a due task,
the monotonic clock advancing, and the worker consuming a pending notify
when it wakes. -/
inductive Step : G1ServiceThread → G1ServiceThread → Prop
  | registerStep (st st' : G1ServiceThread) (tid : Nat) (delay : Int) :
      register_task st tid delay = Except.ok st' → Step st st'
  | scheduleStep (st st' : G1ServiceThread) (tid : Nat) (delay : Int) :
      schedule st tid delay = Except.ok st' → Step st st'
  | popDueStep (st : G1ServiceThread) : Step st (pop_due_task st).2
  | tickStep (st : G1ServiceThread) (n : Int) :
      st.now ≤ n → Step st { st with now := n }
  | wakeStep (st : G1ServiceThread) :
      Step st { st with notified := false }

/-- Claim C5: for a task without an owner, register_task succeeds, sets the
owner to this thread, inserts the task into the queue via add_ordered with
due time now + delay, and notifies the monitor; and across every scheduler
step, a task identity newly present in the queue can only have entered
through such a schedule_task insertion (an add_ordered of the task at
now + delay together with a monitor notify). -/
theorem claim_C5_register_only_path (st : G1ServiceThread) (tid : Nat)
    (delay : Int) (h : tid ∉ st.registered) :
    (∃ st', register_task st tid delay = Except.ok st' ∧
      tid ∈ st'.registered ∧
      st'.task_queue = st.task_queue.add_ordered ⟨tid, st.now + delay⟩ ∧
      st'.notified = true) ∧
    (∀ s s' : G1ServiceThread, Step s s' → ∀ i : Nat,
      (∃ x ∈ s'.task_queue.chain, x.id = i) →
      (∃ x ∈ s.task_queue.chain, x.id = i) ∨
      ∃ d, s'.task_queue = s.task_queue.add_ordered ⟨i, s.now + d⟩ ∧
        s'.notified = true) := by
  constructor
  · refine ⟨schedule_task { st with registered := tid :: st.registered }
      tid delay, ?_, ?_, rfl, rfl⟩
    · simp [register_task, h]
    · exact List.mem_cons_self tid st.registered
  · intro s s' hstep i hi
    cases hstep with
    | registerStep st2 tid2 d2 heq =>
      by_cases hmem : tid2 ∈ s.registered
      · simp [register_task, hmem] at heq
      · simp only [register_task, if_neg hmem, Except.ok.injEq] at heq
        obtain ⟨x, hx, hxi⟩ := hi
        rw [← heq] at hx
        have hx2 := (mem_add_ordered_chain _ x _).1 hx
        rcases hx2 with hx2 | hx2
        · right
          have hid : i = tid2 := by
            rw [← hxi, hx2]
          subst hid
          refine ⟨d2, ?_, ?_⟩ <;> rw [← heq] <;> simp [schedule_task]
        · exact Or.inl ⟨x, hx2, hxi⟩
    | scheduleStep st2 tid2 d2 heq =>
      by_cases hmem : tid2 ∈ s.registered
      · simp only [schedule, if_pos hmem, Except.ok.injEq] at heq
        obtain ⟨x, hx, hxi⟩ := hi
        rw [← heq] at hx
        have hx2 := (mem_add_ordered_chain _ x _).1 hx
        rcases hx2 with hx2 | hx2
        · right
          have hid : i = tid2 := by
            rw [← hxi, hx2]
          subst hid
          refine ⟨d2, ?_, ?_⟩ <;> rw [← heq] <;> simp [schedule_task]
        · exact Or.inl ⟨x, hx2, hxi⟩
      · simp [schedule, hmem] at heq
    | popDueStep =>
      left
      obtain ⟨x, hx, hxi⟩ := hi
      by_cases hcond : s.task_queue.is_empty = true ∨ time_to_next_task_ms s ≠ 0
      · rw [pop_due_task, if_pos hcond] at hx
        exact ⟨x, hx, hxi⟩
      · rw [pop_due_task, if_neg hcond] at hx
        simp only [G1ServiceTaskQueue.pop] at hx
        exact ⟨x, List.mem_of_mem_tail hx, hxi⟩
    | tickStep n hle =>
      exact Or.inl hi
    | wakeStep =>
      exact Or.inl hi

/-- Witness for claim C5 at the thread state with clock 0, a fresh queue and
no registered task, registering task 1 with delay 5. -/
theorem claim_C5_witness :
    (∃ st', register_task ⟨0, G1ServiceTaskQueue.init, [], false⟩ 1 5 =
        Except.ok st' ∧
      1 ∈ st'.registered ∧
      st'.task_queue = G1ServiceTaskQueue.init.add_ordered ⟨1, (0 : Int) + 5⟩ ∧
      st'.notified = true) ∧
    (∀ s s' : G1ServiceThread, Step s s' → ∀ i : Nat,
      (∃ x ∈ s'.task_queue.chain, x.id = i) →
      (∃ x ∈ s.task_queue.chain, x.id = i) ∨
      ∃ d, s'.task_queue = s.task_queue.add_ordered ⟨i, s.now + d⟩ ∧
        s'.notified = true) :=
  claim_C5_register_only_path ⟨0, G1ServiceTaskQueue.init, [], false⟩ 1 5
    (by decide)

/-- Counterexample to claim C4 as stated: at the concrete thread state with
task 1 registered (owner already non-null), calling schedule on task 1 (as a
task does from inside its own execute to reschedule) does not trigger the
fatal programming-error path; it succeeds. -/
theorem claim_C4_counterexample :
    (1 : Nat) ∈
      (⟨0, G1ServiceTaskQueue.init, [1], false⟩ : G1ServiceThread).registered ∧
    (schedule ⟨0, G1ServiceTaskQueue.init, [1], false⟩ 1 5).isOk = true := by
  constructor
  · decide
  · rfl

/-- Claim C4 (amended): calling register_task on a task whose owner reference
is already non-null triggers the fatal programming-error path (it never
returns a new state, so no duplicate is silently inserted and the condition
is not recoverable); the schedule call a task makes from inside execute
instead requires the owner to be non-null and is the normal reschedule
path. -/
theorem claim_C4_register_owned_fatal (st : G1ServiceThread) (tid : Nat)
    (delay : Int) (h : tid ∈ st.registered) :
    register_task st tid delay = Except.error G1Fatal.already_registered ∧
    (∀ st', register_task st tid delay ≠ Except.ok st') ∧
    schedule st tid delay = Except.ok (schedule_task st tid delay) := by
  refine ⟨by simp [register_task, h], ?_, by simp [schedule, h]⟩
  intro st' hco
  simp [register_task, h] at hco

/-- Witness for the amended claim C4 at the thread state with task 1
registered. -/
theorem claim_C4_witness :
    register_task ⟨0, G1ServiceTaskQueue.init, [1], false⟩ 1 5 =
      Except.error G1Fatal.already_registered ∧
    (∀ st', register_task ⟨0, G1ServiceTaskQueue.init, [1], false⟩ 1 5 ≠
      Except.ok st') ∧
    schedule ⟨0, G1ServiceTaskQueue.init, [1], false⟩ 1 5 =
      Except.ok (schedule_task ⟨0, G1ServiceTaskQueue.init, [1], false⟩ 1 5) :=
  claim_C4_register_owned_fatal ⟨0, G1ServiceTaskQueue.init, [1], false⟩ 1 5
    (by decide)

/-- Claim C7: whenever the worker pops a task for execution (pop_due_task
returns a task), that task is not the sentinel, so the execute of the
sentinel is never invoked in a normal run; and the execute of the sentinel
is the fatal invariant-violation path, never a silent no-op. -/
theorem claim_C7_sentinel_unreachable (st : G1ServiceThread)
    (t : G1ServiceTask) (st' : G1ServiceThread)
    (h : pop_due_task st = (some t, st')) :
    t ≠ sentinelTask ∧
    sentinel_execute = Except.error G1Fatal.sentinel_executed ∧
    ∀ u : Unit, sentinel_execute ≠ Except.ok u := by
  have hfatal : ∀ u : Unit, sentinel_execute ≠ Except.ok u := by
    intro u hco
    simp [sentinel_execute] at hco
  by_cases hcond : st.task_queue.is_empty = true ∨ time_to_next_task_ms st ≠ 0
  · rw [pop_due_task, if_pos hcond] at h
    simp at h
  · rw [pop_due_task, if_neg hcond] at h
    have hne : st.task_queue.is_empty = false := by
      rcases Bool.eq_false_or_eq_true st.task_queue.is_empty with hb | hb
      · exact absurd (Or.inl hb) hcond
      · exact hb
    have hpop : (st.task_queue.pop).1 = some t := by
      have := congrArg Prod.fst h
      simpa using this
    have hpeek : st.task_queue.peek = some t := hpop
    refine ⟨?_, rfl, hfatal⟩
    intro habs
    rw [habs] at hpeek
    simp [G1ServiceTaskQueue.is_empty, hpeek] at hne

/-- Witness for claim C7 at the thread state with clock 5 and a queue holding
task 1 due at 3 followed by the sentinel. -/
theorem claim_C7_witness :
    (⟨1, 3⟩ : G1ServiceTask) ≠ sentinelTask ∧
    sentinel_execute = Except.error G1Fatal.sentinel_executed ∧
    ∀ u : Unit, sentinel_execute ≠ Except.ok u :=
  claim_C7_sentinel_unreachable ⟨5, ⟨[⟨1, 3⟩, sentinelTask]⟩, [1], false⟩
    ⟨1, 3⟩ ⟨5, ⟨[sentinelTask]⟩, [1], false⟩ (by decide)

/-- Claim C8: when the worker computes how long to wait, the interval equals
the due time of the head minus now, clamped to be non-negative (never
negative), and when the head is the sentinel the wait equals the maximum
interval the clock can still represent, max_jlong - now, rather than a true
unbounded block. -/
theorem claim_C8_wait_clamped (st : G1ServiceThread) (t : G1ServiceTask)
    (hpeek : st.task_queue.peek = some t) (hnow : st.now ≤ max_jlong) :
    time_to_next_task_ms st = max 0 (t.time - st.now) ∧
    0 ≤ time_to_next_task_ms st ∧
    (t = sentinelTask → time_to_next_task_ms st = max_jlong - st.now) := by
  have h1 : time_to_next_task_ms st = max 0 (t.time - st.now) := by
    simp [time_to_next_task_ms, hpeek]
  refine ⟨h1, ?_, ?_⟩
  · rw [h1]
    exact le_max_left 0 _
  · intro hts
    rw [h1, hts]
    have h0 : (0 : Int) ≤ max_jlong - st.now := by omega
    simpa [sentinelTask] using max_eq_right h0

/-- Witness for claim C8 at the thread state with clock 5 and head task 1 due
at 3. -/
theorem claim_C8_witness :
    time_to_next_task_ms ⟨5, ⟨[⟨1, 3⟩, sentinelTask]⟩, [1], false⟩ =
      max 0 ((3 : Int) - 5) ∧
    0 ≤ time_to_next_task_ms ⟨5, ⟨[⟨1, 3⟩, sentinelTask]⟩, [1], false⟩ ∧
    ((⟨1, 3⟩ : G1ServiceTask) = sentinelTask →
      time_to_next_task_ms ⟨5, ⟨[⟨1, 3⟩, sentinelTask]⟩, [1], false⟩ =
        max_jlong - 5) :=
  claim_C8_wait_clamped ⟨5, ⟨[⟨1, 3⟩, sentinelTask]⟩, [1], false⟩ ⟨1, 3⟩ rfl
    (by decide)

/-- Claim C9: if the worker is sleeping with next deadline D (the due time of
the current head) and another thread registers a task with due time
tr + delay strictly below D at time tr, then the registration succeeds and
notifies the monitor, the timed wait of the worker returns early at the
notify time tr instead of sleeping out the stale interval to D, the newly
registered task is now at the head of the queue, and the worker pops exactly
that task at its due time, which is before D elapses. -/
theorem claim_C9_wake_on_register (st : G1ServiceThread)
    (hd : G1ServiceTask) (D : Int) (tid : Nat) (delay tr : Int)
    (hpeek : st.task_queue.peek = some hd)
    (hD : hd.time = D)
    (hreg : tid ∉ st.registered)
    (hsleep : st.now ≤ tr)
    (hdue : tr + delay < D)
    (hdel : 0 ≤ delay)
    (hmax : D ≤ max_jlong) :
    ∃ st', register_task { st with now := tr } tid delay = Except.ok st' ∧
      st'.notified = true ∧
      sleep_wake_time st.now (time_to_next_task_ms st) (some tr) = tr ∧
      tr < D ∧
      st'.task_queue.peek = some ⟨tid, tr + delay⟩ ∧
      tr + delay < D ∧
      (pop_due_task { st' with now := tr + delay }).1 =
        some ⟨tid, tr + delay⟩ := by
  obtain ⟨rest, hchain⟩ : ∃ rest, st.task_queue.chain = hd :: rest := by
    cases hc : st.task_queue.chain with
    | nil => simp [G1ServiceTaskQueue.peek, hc] at hpeek
    | cons a rest =>
      simp only [G1ServiceTaskQueue.peek, hc, List.head?_cons,
        Option.some.injEq] at hpeek
      exact ⟨rest, by rw [hpeek]⟩
  have htr : tr < D := by omega
  refine ⟨schedule_task
    { st with now := tr, registered := tid :: st.registered } tid delay,
    by simp [register_task, hreg], rfl, ?_, htr, ?_, hdue, ?_⟩
  · have hwait : time_to_next_task_ms st = D - st.now := by
      have h0 : (0 : Int) ≤ D - st.now := by omega
      simp only [time_to_next_task_ms, hpeek, hD]
      exact max_eq_right h0
    simp only [sleep_wake_time, hwait]
    have hend : st.now + (D - st.now) = D := by omega
    rw [hend]
    exact min_eq_left (le_of_lt htr)
  · have hins : add_ordered_chain ⟨tid, tr + delay⟩ (hd :: rest) =
        ⟨tid, tr + delay⟩ :: hd :: rest := by
      have : (⟨tid, tr + delay⟩ : G1ServiceTask).time < hd.time := by
        simp only [hD]
        omega
      simp [add_ordered_chain, this]
    simp [schedule_task, G1ServiceTaskQueue.add_ordered,
      G1ServiceTaskQueue.peek, hchain, hins]
  · have hins : add_ordered_chain ⟨tid, tr + delay⟩ (hd :: rest) =
        ⟨tid, tr + delay⟩ :: hd :: rest := by
      have : (⟨tid, tr + delay⟩ : G1ServiceTask).time < hd.time := by
        simp only [hD]
        omega
      simp [add_ordered_chain, this]
    have hq : (schedule_task
        { st with now := tr, registered := tid :: st.registered }
          tid delay).task_queue.chain =
        ⟨tid, tr + delay⟩ :: hd :: rest := by
      simp [schedule_task, G1ServiceTaskQueue.add_ordered, hchain, hins]
    have hne : (⟨tid, tr + delay⟩ : G1ServiceTask) ≠ sentinelTask :=
      ne_sentinel_of_time_lt (by simp only []; omega)
    have hempty : (schedule_task
        { st with now := tr, registered := tid :: st.registered }
          tid delay).task_queue.is_empty = false := by
      simp [G1ServiceTaskQueue.is_empty, G1ServiceTaskQueue.peek, hq, hne]
    have hzero : time_to_next_task_ms
        { schedule_task
            { st with now := tr, registered := tid :: st.registered }
              tid delay with now := tr + delay } = 0 := by
      simp [time_to_next_task_ms, G1ServiceTaskQueue.peek, hq]
    rw [pop_due_task, if_neg (by simp [hempty, hzero])]
    simp [G1ServiceTaskQueue.pop, hq]

/-- Witness for claim C9: worker at clock 0 with head task 1 due at 100;
task 2 is registered at time 10 with delay 20, so it is due at 30, before
the old deadline 100. -/
theorem claim_C9_witness :
    ∃ st', register_task
        { (⟨0, ⟨[⟨1, 100⟩, sentinelTask]⟩, [1], false⟩ : G1ServiceThread)
          with now := (10 : Int) } 2 20 = Except.ok st' ∧
      st'.notified = true ∧
      sleep_wake_time 0 (time_to_next_task_ms
        ⟨0, ⟨[⟨1, 100⟩, sentinelTask]⟩, [1], false⟩) (some 10) = 10 ∧
      (10 : Int) < 100 ∧
      st'.task_queue.peek = some ⟨2, (10 : Int) + 20⟩ ∧
      (10 : Int) + 20 < 100 ∧
      (pop_due_task { st' with now := (10 : Int) + 20 }).1 =
        some ⟨2, (10 : Int) + 20⟩ :=
  claim_C9_wake_on_register ⟨0, ⟨[⟨1, 100⟩, sentinelTask]⟩, [1], false⟩
    ⟨1, 100⟩ 100 2 20 10 rfl rfl (by decide) (by decide) (by decide)
    (by decide) (by decide)

end G1ServiceThread

end G1

namespace JfrChunk

/-- The guard value for the JfrChunk generation byte (jfrChunk.cpp line 35:
static const u1 GUARD = 0xff). -/
def GUARD : Nat := 0xff

/-- JfrChunk::generation() const (jfrChunk.cpp lines 184 to 191), as a
function of the mutable `_generation` field (a u1, so arithmetic is modulo
256; the other JfrChunk fields are untouched by this member).  It asserts
`_generation > 0` in debug builds, returns the current value, increments the
field, and resets the field to 1 when the incremented value hits GUARD.  The
result is the returned u1 and the updated field. -/
def generation (g : Nat) : Nat × Nat :=
  (g, if (g + 1) % 256 = GUARD then 1 else (g + 1) % 256)

/-- JfrChunk::is_finished() const (jfrChunk.cpp lines 155 to 157):
`0 == _generation`. -/
def is_finished (g : Nat) : Bool :=
  decide (0 = g)

/-- The `_generation` value established by the JfrChunk constructor
(jfrChunk.cpp line 54) and by reset() (line 66). -/
def initial_generation : Nat := 1

/-- The `_generation` field after n calls of generation() on a chunk whose
field starts at the constructor value. -/
def generationState : Nat → Nat
  | 0 => initial_generation
  | Nat.succ n => (generation (generationState n)).2

theorem generation_step_bounds (g : Nat) (h1 : 1 ≤ g) (h254 : g ≤ 254) :
    1 ≤ (generation g).1 ∧ (generation g).1 ≤ 254 ∧
    1 ≤ (generation g).2 ∧ (generation g).2 ≤ 254 := by
  have hfst : (generation g).1 = g := rfl
  have hmod : (g + 1) % 256 = g + 1 := Nat.mod_eq_of_lt (by omega)
  by_cases hg : g = 254
  · subst hg
    decide
  · have hne : g + 1 ≠ GUARD := by
      simp only [GUARD]
      omega
    have hsnd : (generation g).2 = g + 1 := by
      simp only [generation, hmod, if_neg hne]
    rw [hfst, hsnd]
    exact ⟨by omega, by omega, by omega, by omega⟩

theorem generationState_bounds (n : Nat) :
    1 ≤ generationState n ∧ generationState n ≤ 254 := by
  induction n with
  | zero => exact ⟨le_refl 1, by simp [generationState, initial_generation]⟩
  | succ n ih =>
    have := generation_step_bounds (generationState n) ih.1 ih.2
    exact ⟨this.2.2.1, this.2.2.2⟩

/-- Claim C10: starting from the constructor value of the `_generation`
field, every call of generation() returns a value between 1 and 254 and
leaves the field between 1 and 254 (wrapping from 254 back to 1 and skipping
the guard value 0xff, never reaching 0), so repeated generation() calls
alone can never make is_finished() return true. -/
theorem claim_C10_generation_range (n : Nat) :
    (1 ≤ (generation (generationState n)).1 ∧
      (generation (generationState n)).1 ≤ 254) ∧
    (1 ≤ (generation (generationState n)).2 ∧
      (generation (generationState n)).2 ≤ 254) ∧
    generation 254 = (254, 1) ∧
    is_finished (generationState n) = false ∧
    is_finished ((generation (generationState n)).2) = false := by
  have hb := generationState_bounds n
  have hstep := generation_step_bounds (generationState n) hb.1 hb.2
  refine ⟨⟨hstep.1, hstep.2.1⟩, ⟨hstep.2.2.1, hstep.2.2.2⟩, by decide, ?_, ?_⟩
  · simp only [is_finished, decide_eq_false_iff_not]
    omega
  · have := hstep.2.2.1
    simp only [is_finished, decide_eq_false_iff_not]
    omega

end JfrChunk
